import Mathlib

/-!
Shallow embedding of the cost-shredly client's balance engine, realtime
expense merge, group-room join guard, and credential store, together with
theorems settling the specification claims about them.

Numbers are modelled exactly as rationals; JavaScript's
`parseFloat(x.toFixed(2))` is modelled by decimal rounding to two fraction
digits with ties away from the smaller integer (`round2`), matching the
ECMAScript `toFixed` rule "pick the larger n on a tie".
-/

namespace CostShredly

/-- `parseFloat(x.toFixed(2))`: round to 2 decimal places, ties picking the
larger integer numerator, as ECMAScript `toFixed` specifies. -/
def round2 (q : ℚ) : ℚ := (⌊q * 100 + 1 / 2⌋ : ℚ) / 100

/-- A reference to a member as it appears in expense payloads: either a full
member record (matched via its `_id` field) or a bare identifier string. -/
inductive MemberRef where
  | record (id : String)
  | bare (id : String)
deriving Repr, DecidableEq

/-- The check `u._id === memberId || u === memberId` applied to a split-among
entry: a record matches through its `_id`, a bare string matches directly. -/
def refMatches (u : MemberRef) (memberId : String) : Bool :=
  match u with
  | .record i => i == memberId
  | .bare i => i == memberId

/-- The check `e.paidBy?._id === memberId || e.paidBy === memberId`:
a missing payer matches nothing. -/
def paidByMatches (paidBy : Option MemberRef) (memberId : String) : Bool :=
  match paidBy with
  | none => false
  | some u => refMatches u memberId

/-- An expense record as the client receives it. -/
structure Expense where
  _id : String
  description : String
  amount : ℚ
  paidBy : Option MemberRef
  splitAmong : List MemberRef
  createdAt : String
deriving Repr, DecidableEq

/-- A group snapshot; `expenses` is optional to model `group?.expenses`
being `undefined` on a partial payload. -/
structure Group where
  _id : String
  name : String
  expenses : Option (List Expense)
deriving Repr, DecidableEq

/-- The result record `{ paid, share, net }` of `computeMemberBalance`. -/
structure Balance where
  paid : ℚ
  share : ℚ
  net : ℚ
deriving Repr, DecidableEq

/-- One iteration of the `group.expenses.forEach` loop in
`computeMemberBalance`: when `splitAmong` is empty the callback returns
early, before either accumulation; otherwise the rounded individual share
is computed, `paid` accumulates the raw amount when the payer matches, and
`share` accumulates the rounded individual share when the member occurs in
`splitAmong`. -/
def balanceStep (memberId : String) (acc : ℚ × ℚ) (e : Expense) : ℚ × ℚ :=
  let numSplit := e.splitAmong.length
  if numSplit = 0 then acc
  else
    let individualShare := round2 (e.amount / numSplit)
    let paid := if paidByMatches e.paidBy memberId then acc.1 + e.amount else acc.1
    let share :=
      if e.splitAmong.any (fun u => refMatches u memberId) then acc.2 + individualShare
      else acc.2
    (paid, share)

/-- `computeMemberBalance` from the group-details view: guard
`if (!group?.expenses) return { paid: 0, share: 0, net: 0 }`, then the
`forEach` accumulation, then `net = parseFloat((paid - share).toFixed(2))`. -/
def computeMemberBalance (memberId : String) (group : Option Group) : Balance :=
  match group with
  | none => ⟨0, 0, 0⟩
  | some g =>
    match g.expenses with
    | none => ⟨0, 0, 0⟩
    | some es =>
      let acc := es.foldl (balanceStep memberId) (0, 0)
      ⟨acc.1, acc.2, round2 (acc.1 - acc.2)⟩

/-- Per-expense contribution to `paid` made by one loop iteration. -/
def paidContrib (memberId : String) (e : Expense) : ℚ :=
  if e.splitAmong.length = 0 then 0
  else if paidByMatches e.paidBy memberId then e.amount
  else 0

/-- Per-expense contribution to `share` made by one loop iteration. -/
def shareContrib (memberId : String) (e : Expense) : ℚ :=
  if e.splitAmong.length = 0 then 0
  else if e.splitAmong.any (fun u => refMatches u memberId) then
    round2 (e.amount / e.splitAmong.length)
  else 0

lemma balanceStep_eq (memberId : String) (acc : ℚ × ℚ) (e : Expense) :
    balanceStep memberId acc e =
      (acc.1 + paidContrib memberId e, acc.2 + shareContrib memberId e) := by
  unfold balanceStep paidContrib shareContrib
  split_ifs <;> simp_all

lemma foldl_balanceStep (memberId : String) (es : List Expense) (p s : ℚ) :
    es.foldl (balanceStep memberId) (p, s) =
      (p + (es.map (paidContrib memberId)).sum,
       s + (es.map (shareContrib memberId)).sum) := by
  induction es generalizing p s with
  | nil => simp
  | cons e es ih =>
    rw [List.foldl_cons, balanceStep_eq]
    rw [ih]
    simp [add_assoc]

lemma computeMemberBalance_some (memberId : String) (g : Group)
    (es : List Expense) (h : g.expenses = some es) :
    computeMemberBalance memberId (some g) =
      ⟨(es.map (paidContrib memberId)).sum,
       (es.map (shareContrib memberId)).sum,
       round2 ((es.map (paidContrib memberId)).sum
         - (es.map (shareContrib memberId)).sum)⟩ := by
  unfold computeMemberBalance
  simp only [h]
  have hf := foldl_balanceStep memberId es 0 0
  simp only [hf, zero_add]

lemma round2_zero : round2 0 = 0 := by
  unfold round2
  norm_num

/-- Rounding to 2 decimal places moves a value by at most half a cent. -/
lemma abs_round2_sub_le (q : ℚ) : |round2 q - q| ≤ 1 / 200 := by
  have h1 : (⌊q * 100 + 1 / 2⌋ : ℚ) ≤ q * 100 + 1 / 2 := Int.floor_le _
  have h2 : q * 100 + 1 / 2 < (⌊q * 100 + 1 / 2⌋ : ℚ) + 1 := Int.lt_floor_add_one _
  have heq : round2 q - q = ((⌊q * 100 + 1 / 2⌋ : ℚ) - q * 100) / 100 := by
    unfold round2
    ring
  rw [heq, abs_div]
  have h100 : |(100 : ℚ)| = 100 := by norm_num
  rw [h100, div_le_iff₀ (by norm_num : (0 : ℚ) < 100), abs_le]
  constructor <;> linarith

/-- Rounding to 2 decimal places is the identity on exact multiples of a
cent. -/
lemma round2_cent (k : ℤ) : round2 ((k : ℚ) / 100) = (k : ℚ) / 100 := by
  unfold round2
  have : (k : ℚ) / 100 * 100 + 1 / 2 = (k : ℚ) + 1 / 2 := by
    field_simp
  rw [this]
  have hfl : ⌊(k : ℚ) + 1 / 2⌋ = k := by
    rw [Int.floor_eq_iff]
    constructor
    · linarith
    · have : ((k + 1 : ℤ) : ℚ) = (k : ℚ) + 1 := by push_cast; ring
      linarith [this.ge]
  rw [hfl]

/-- Spec-side formula for `share` (used only to compare with the code): the
sum, over exactly those expenses whose split-among list is non-empty and
contains the member, of the per-expense amount divided by the split size
and rounded to 2 decimal places. -/
def shareSpec (memberId : String) (es : List Expense) : ℚ :=
  ((es.filter (fun e =>
      !e.splitAmong.isEmpty && e.splitAmong.any (fun u => refMatches u memberId))).map
    (fun e => round2 (e.amount / e.splitAmong.length))).sum

/-- Spec-side formula for `paid` (used only to compare with the code): the
unrounded sum of the amounts of every expense whose payer matches the
member, with no condition on the split-among list. -/
def paidSpec (memberId : String) (es : List Expense) : ℚ :=
  ((es.filter (fun e => paidByMatches e.paidBy memberId)).map (fun e => e.amount)).sum

lemma shareContrib_sum_eq (memberId : String) (es : List Expense) :
    (es.map (shareContrib memberId)).sum = shareSpec memberId es := by
  induction es with
  | nil => simp [shareSpec]
  | cons e es ih =>
    simp only [List.map_cons, List.sum_cons, shareSpec, List.filter_cons] at *
    by_cases h0 : e.splitAmong.length = 0
    · have hempty : e.splitAmong.isEmpty = true := by
        simpa [List.isEmpty_iff, List.length_eq_zero] using h0
      simp [shareContrib, h0, hempty, ih, shareSpec]
    · have hne : e.splitAmong.isEmpty = false := by
        rw [Bool.eq_false_iff]
        intro hc
        have hnil : e.splitAmong = [] := by simpa [List.isEmpty_iff] using hc
        exact h0 (by simp [hnil])
      by_cases hmem : e.splitAmong.any (fun u => refMatches u memberId) = true
      · simp [shareContrib, h0, hne, hmem, ih, shareSpec]
      · simp [shareContrib, h0, hne, hmem, ih, shareSpec]

lemma paidContrib_sum_eq (memberId : String) (es : List Expense) :
    (es.map (paidContrib memberId)).sum =
      paidSpec memberId (es.filter (fun e => !e.splitAmong.isEmpty)) := by
  induction es with
  | nil => simp [paidSpec]
  | cons e es ih =>
    simp only [List.map_cons, List.sum_cons, List.filter_cons] at *
    by_cases h0 : e.splitAmong.length = 0
    · have hempty : e.splitAmong.isEmpty = true := by
        simpa [List.isEmpty_iff, List.length_eq_zero] using h0
      simp [paidContrib, h0, hempty, ih]
    · have hne : e.splitAmong.isEmpty = false := by
        rw [Bool.eq_false_iff]
        intro hc
        have hnil : e.splitAmong = [] := by simpa [List.isEmpty_iff] using hc
        exact h0 (by simp [hnil])
      by_cases hpay : paidByMatches e.paidBy memberId = true
      · simp [paidContrib, h0, hne, hpay, ih, paidSpec, List.filter_cons]
      · simp [paidContrib, h0, hne, hpay, ih, paidSpec, List.filter_cons]

/-- The expense list of an optional group snapshot, empty when the snapshot
or its `expenses` field is absent. -/
def expensesOf (og : Option Group) : List Expense :=
  match og with
  | none => []
  | some g => g.expenses.getD []

/-- The `setGroup(prev => ...)` updater inside the `expenseAdded` handler:
a missing snapshot is returned unchanged; when some existing expense has the
incoming identifier the snapshot is returned unchanged; otherwise the
incoming expense is appended (to the empty list when `expenses` was
absent). -/
def mergeExpense (prev : Option Group) (expense : Expense) : Option Group :=
  match prev with
  | none => none
  | some g =>
    if (g.expenses.getD []).any (fun e => e._id == expense._id) then some g
    else some { g with expenses := some (g.expenses.getD [] ++ [expense]) }

/-- The whole `handleExpense` reaction: the merge updater, paired with the
fact that `fetchGroupData()` is invoked unconditionally afterwards. -/
def handleExpense (prev : Option Group) (expense : Expense) :
    Option Group × Bool :=
  (mergeExpense prev expense, true)

/-- JavaScript falsiness of a possibly-absent stored string: absent
(`null`/`undefined`) and the empty string are falsy. -/
def strFalsy : Option String → Bool
  | none => true
  | some s => s == ""

/-- Observable outcome of the socket useEffect's connect-and-join prefix. -/
structure JoinEffect where
  connectAttempted : Bool
  joinEmitted : Bool
deriving Repr, DecidableEq

/-- The group-room join prefix of the socket useEffect:
`const token = getAuthToken(); if (!token) return;` then
`if (!socket.connected) socket.connect(); socket.emit("joinGroup", ...)`. -/
def socketJoinEffect (token : Option String) (connected : Bool) : JoinEffect :=
  if strFalsy token then ⟨false, false⟩
  else ⟨!connected, true⟩

/-- How `fetchGroupData` begins: redirect to the login route, or issue the
authorized request with the bearer token. -/
inductive FetchStart where
  | redirectLogin
  | request (bearer : String)
deriving Repr, DecidableEq

/-- The token guard at the top of `fetchGroupData`:
`const token = getAuthToken(); if (!token) { navigate("/login"); return; }`
and otherwise the request carries `Bearer token`. -/
def fetchGroupDataStart (token : Option String) : FetchStart :=
  if strFalsy token then .redirectLogin
  else .request (token.getD "")

/-- The two redundant browser stores used by `utils/auth.js`: the
session-scoped store and the durable store, each holding an optional user
record (modelled by its serialized form) and an optional token. -/
structure AuthStore where
  sessionUser : Option String
  sessionToken : Option String
  localUser : Option String
  localToken : Option String
deriving Repr, DecidableEq

/-- `setAuthData(user, token)`: `if (!user || !token) return;` and otherwise
the user record and token are written to both stores. -/
def setAuthData (user token : Option String) (st : AuthStore) : AuthStore :=
  if strFalsy user || strFalsy token then st
  else ⟨user, token, user, token⟩

/-- `getAuthToken()`: the session-scoped token when truthy, otherwise the
durable one (`sessionStorage.getItem("token") || localStorage.getItem("token")`). -/
def getAuthToken (st : AuthStore) : Option String :=
  if strFalsy st.sessionToken then st.localToken else st.sessionToken

/-- `clearAuthData()`: removes user and token from both stores. -/
def clearAuthData (_ : AuthStore) : AuthStore :=
  ⟨none, none, none, none⟩

/-- Rationals that are an exact whole number of cents. -/
def IsCent (q : ℚ) : Prop := ∃ k : ℤ, q = (k : ℚ) / 100

lemma isCent_zero : IsCent 0 := ⟨0, by norm_num⟩

lemma isCent_add {a b : ℚ} (ha : IsCent a) (hb : IsCent b) : IsCent (a + b) := by
  obtain ⟨j, rfl⟩ := ha
  obtain ⟨k, rfl⟩ := hb
  exact ⟨j + k, by push_cast; ring⟩

lemma isCent_round2 (q : ℚ) : IsCent (round2 q) := ⟨⌊q * 100 + 1 / 2⌋, rfl⟩

lemma isCent_sum (l : List ℚ) (h : ∀ q ∈ l, IsCent q) : IsCent l.sum := by
  induction l with
  | nil => simpa using isCent_zero
  | cons a l ih =>
    rw [List.sum_cons]
    exact isCent_add (h a (by simp)) (ih fun q hq => h q (by simp [hq]))

lemma round2_eq_self_of_isCent {q : ℚ} (h : IsCent q) : round2 q = q := by
  obtain ⟨k, rfl⟩ := h
  exact round2_cent k

lemma sum_map_filter_nonempty_split (f : Expense → ℚ)
    (h0 : ∀ e, e.splitAmong.length = 0 → f e = 0) (es : List Expense) :
    ((es.filter (fun e => !e.splitAmong.isEmpty)).map f).sum = (es.map f).sum := by
  induction es with
  | nil => simp
  | cons e es ih =>
    rw [List.filter_cons]
    by_cases hemp : e.splitAmong.isEmpty = true
    · have : f e = 0 := h0 e (by simpa [List.isEmpty_iff] using hemp)
      simp [hemp, ih, this]
    · simp only [Bool.not_eq_true] at hemp
      simp [hemp, ih]

/-! Concrete fixtures used by witnesses and counterexamples. -/

def memA : MemberRef := .record "a"

def memB : MemberRef := .record "b"

def memC : MemberRef := .record "c"

def expSplit3 : Expense := ⟨"e1", "dinner", 100, some memA, [memA, memB, memC], "t1"⟩

def grpSplit3 : Group := ⟨"g1", "trip", some [expSplit3]⟩

def expNoSplit : Expense := ⟨"e0", "orphan", 100, some (.bare "a"), [], "t0"⟩

def grpNoSplit : Group := ⟨"g0", "solo", some [expNoSplit]⟩

def grpMixed : Group := ⟨"g2", "mixed", some [expSplit3, expNoSplit]⟩

def expTiny : Expense := ⟨"e3", "tiny", 1 / 1000, some (.bare "a"), [.bare "b"], "t3"⟩

def grpTiny : Group := ⟨"g3", "micro", some [expTiny]⟩

def expFifty : Expense := ⟨"e4", "taxi", 50, some memA, [memA, memB], "t4"⟩

def expThirty : Expense := ⟨"e5", "snacks", 30, some memB, [memA, memB], "t5"⟩

def grpTwo : Group := ⟨"g4", "pair", some [expFifty, expThirty]⟩

def grpNoExpenses : Group := ⟨"g5", "fresh", none⟩

/-- C1: for every member identifier and every expense list, the `share`
component of `computeMemberBalance` equals the sum, over exactly those
expenses whose split-among list is non-empty and contains that member, of
the amount divided by the split size rounded to 2 decimal places, rounding
applied per expense before summation. -/
theorem share_eq_shareSpec (memberId : String) (g : Group)
    (es : List Expense) (h : g.expenses = some es) :
    (computeMemberBalance memberId (some g)).share = shareSpec memberId es := by
  rw [computeMemberBalance_some memberId g es h]
  exact shareContrib_sum_eq memberId es

theorem share_eq_shareSpec_witness :
    (computeMemberBalance "a" (some grpSplit3)).share = shareSpec "a" [expSplit3] :=
  share_eq_shareSpec "a" grpSplit3 [expSplit3] rfl

/-- C2 counterexample: an expense whose split-among list is empty is skipped
by the loop before the `paid` accumulation, so its full amount does NOT
reach its payer's `paid`: the code yields `paid = 0` where the claim's
formula (sum over all matching-payer expenses) yields `100`. -/
theorem paid_empty_split_cex :
    (computeMemberBalance "a" (some grpNoSplit)).paid = 0 ∧
    paidSpec "a" [expNoSplit] = 100 := by
  constructor
  · simp [computeMemberBalance, grpNoSplit, expNoSplit, balanceStep]
  · simp [paidSpec, expNoSplit, paidByMatches, refMatches]

/-- C2 (amended): the `paid` component equals the unrounded sum of the
amounts of the expenses whose payer matches the identifier (whether the
payer field is a full record or a bare identifier) AND whose split-among
list is non-empty; an expense with an empty split-among list contributes
nothing at all, its payer's `paid` included, because the empty-split guard
returns before either accumulation. -/
theorem paid_eq_paidSpec_nonempty (memberId : String) (g : Group)
    (es : List Expense) (h : g.expenses = some es) :
    (computeMemberBalance memberId (some g)).paid =
      paidSpec memberId (es.filter (fun e => !e.splitAmong.isEmpty)) := by
  rw [computeMemberBalance_some memberId g es h]
  exact paidContrib_sum_eq memberId es

theorem paid_eq_paidSpec_nonempty_witness :
    (computeMemberBalance "a" (some grpMixed)).paid =
      paidSpec "a"
        ([expSplit3, expNoSplit].filter (fun e => !e.splitAmong.isEmpty)) :=
  paid_eq_paidSpec_nonempty "a" grpMixed [expSplit3, expNoSplit] rfl

/-- C3 counterexample: with the sub-cent amount `0.001` paid by the member
and split toward someone else, the member paid strictly more than their
share, yet `net = round2(0.001) = 0` is not positive, refuting the claim's
sign consequence for arbitrary expense lists. -/
theorem net_sign_cex :
    (computeMemberBalance "a" (some grpTiny)).share
        < (computeMemberBalance "a" (some grpTiny)).paid ∧
    (computeMemberBalance "a" (some grpTiny)).net = 0 := by
  have hb : computeMemberBalance "a" (some grpTiny) = ⟨1 / 1000, 0, 0⟩ := by
    simp [computeMemberBalance, grpTiny, expTiny, balanceStep, paidByMatches,
      refMatches]
    norm_num [round2]
  rw [hb]
  norm_num

/-- C3 (amended): `net` always equals `round2(paid - share)` for the same
call, `paid` being the unrounded sum; and whenever every expense amount is
an exact number of cents, the sign consequences hold as claimed: paid above
share gives positive net, below gives negative net, equal gives zero. -/
theorem net_eq_round2_sub (memberId : String) (g : Group)
    (es : List Expense) (h : g.expenses = some es) :
    (computeMemberBalance memberId (some g)).net =
      round2 ((computeMemberBalance memberId (some g)).paid
        - (computeMemberBalance memberId (some g)).share) ∧
    ((∀ e ∈ es, IsCent e.amount) →
      ((computeMemberBalance memberId (some g)).share
          < (computeMemberBalance memberId (some g)).paid →
        0 < (computeMemberBalance memberId (some g)).net) ∧
      ((computeMemberBalance memberId (some g)).paid
          < (computeMemberBalance memberId (some g)).share →
        (computeMemberBalance memberId (some g)).net < 0) ∧
      ((computeMemberBalance memberId (some g)).paid
          = (computeMemberBalance memberId (some g)).share →
        (computeMemberBalance memberId (some g)).net = 0)) := by
  rw [computeMemberBalance_some memberId g es h]
  dsimp only
  refine ⟨rfl, fun hc => ?_⟩
  have hPc : IsCent (es.map (paidContrib memberId)).sum := by
    apply isCent_sum
    intro q hq
    rw [List.mem_map] at hq
    obtain ⟨e, he, rfl⟩ := hq
    unfold paidContrib
    split_ifs
    exacts [isCent_zero, hc e he, isCent_zero]
  have hSc : IsCent (es.map (shareContrib memberId)).sum := by
    apply isCent_sum
    intro q hq
    rw [List.mem_map] at hq
    obtain ⟨e, he, rfl⟩ := hq
    unfold shareContrib
    split_ifs
    exacts [isCent_zero, isCent_round2 _, isCent_zero]
  obtain ⟨j, hj⟩ := hPc
  obtain ⟨k, hk⟩ := hSc
  have hdiff : IsCent ((es.map (paidContrib memberId)).sum
      - (es.map (shareContrib memberId)).sum) := by
    refine ⟨j - k, ?_⟩
    rw [hj, hk]
    push_cast
    ring
  have hnet := round2_eq_self_of_isCent hdiff
  rw [hnet]
  refine ⟨fun hlt => ?_, fun hlt => ?_, fun heq => ?_⟩
  · linarith
  · linarith
  · rw [heq]
    ring

theorem net_eq_round2_sub_witness :
    ((computeMemberBalance "a" (some grpTwo)).net =
      round2 ((computeMemberBalance "a" (some grpTwo)).paid
        - (computeMemberBalance "a" (some grpTwo)).share)) ∧
    (((computeMemberBalance "a" (some grpTwo)).share
        < (computeMemberBalance "a" (some grpTwo)).paid →
      0 < (computeMemberBalance "a" (some grpTwo)).net) ∧
    ((computeMemberBalance "a" (some grpTwo)).paid
        < (computeMemberBalance "a" (some grpTwo)).share →
      (computeMemberBalance "a" (some grpTwo)).net < 0) ∧
    ((computeMemberBalance "a" (some grpTwo)).paid
        = (computeMemberBalance "a" (some grpTwo)).share →
      (computeMemberBalance "a" (some grpTwo)).net = 0)) := by
  have h := net_eq_round2_sub "a" grpTwo [expFifty, expThirty] rfl
  refine ⟨h.1, h.2 ?_⟩
  intro e he
  simp only [List.mem_cons, List.not_mem_nil, or_false] at he
  rcases he with rfl | rfl
  · exact ⟨5000, by norm_num [expFifty]⟩
  · exact ⟨3000, by norm_num [expThirty]⟩

/-- C4: for an expense whose split-among list has size `n > 0`, each listed
member's individual share contribution equals `round2(amount / n)`, and the
sum of the `n` individual contributions differs from the amount by at most
`n * 0.005`. -/
theorem individual_share_and_drift (e : Expense) (memberId : String)
    (g : Group) (hg : g.expenses = some [e]) (hn : e.splitAmong ≠ [])
    (hm : e.splitAmong.any (fun u => refMatches u memberId) = true) :
    (computeMemberBalance memberId (some g)).share
        = round2 (e.amount / e.splitAmong.length) ∧
    |(e.splitAmong.length : ℚ) * round2 (e.amount / e.splitAmong.length)
        - e.amount| ≤ (e.splitAmong.length : ℚ) * (5 / 1000) := by
  have hlen : e.splitAmong.length ≠ 0 := by
    simpa [List.length_eq_zero] using hn
  have hpos : (0 : ℚ) < e.splitAmong.length := by
    exact_mod_cast Nat.pos_of_ne_zero hlen
  constructor
  · rw [computeMemberBalance_some memberId g [e] hg]
    dsimp only
    simp [shareContrib, hlen, hm]
  · have hne : (e.splitAmong.length : ℚ) ≠ 0 := hpos.ne'
    have hcancel : (e.splitAmong.length : ℚ) * (e.amount / e.splitAmong.length)
        = e.amount := by
      field_simp
    have hkey : (e.splitAmong.length : ℚ)
          * round2 (e.amount / e.splitAmong.length) - e.amount
        = (e.splitAmong.length : ℚ)
          * (round2 (e.amount / e.splitAmong.length)
            - e.amount / e.splitAmong.length) := by
      rw [mul_sub, hcancel]
    rw [hkey, abs_mul, abs_of_pos hpos]
    calc (e.splitAmong.length : ℚ)
          * |round2 (e.amount / e.splitAmong.length)
            - e.amount / e.splitAmong.length|
        ≤ (e.splitAmong.length : ℚ) * (1 / 200) :=
          mul_le_mul_of_nonneg_left (abs_round2_sub_le _) hpos.le
      _ = (e.splitAmong.length : ℚ) * (5 / 1000) := by norm_num

theorem individual_share_and_drift_witness :
    (computeMemberBalance "a" (some grpSplit3)).share
        = round2 (expSplit3.amount / expSplit3.splitAmong.length) ∧
    |(expSplit3.splitAmong.length : ℚ)
        * round2 (expSplit3.amount / expSplit3.splitAmong.length)
        - expSplit3.amount|
      ≤ (expSplit3.splitAmong.length : ℚ) * (5 / 1000) :=
  individual_share_and_drift expSplit3 "a" grpSplit3 rfl (by decide) (by decide)

/-- C5: a member identifier that matches no expense's payer and occurs in no
expense's split-among list (an unknown identifier included) gets
`paid = 0, share = 0, net = 0`; the computation is total, so no error is
possible. -/
theorem untouched_member_zero (memberId : String) (og : Option Group)
    (h : ∀ e ∈ expensesOf og,
        paidByMatches e.paidBy memberId = false ∧
        e.splitAmong.any (fun u => refMatches u memberId) = false) :
    computeMemberBalance memberId og = ⟨0, 0, 0⟩ := by
  cases og with
  | none => rfl
  | some g =>
    cases hg : g.expenses with
    | none =>
      unfold computeMemberBalance
      simp [hg]
    | some es =>
      have hes : ∀ e ∈ es,
          paidByMatches e.paidBy memberId = false ∧
          e.splitAmong.any (fun u => refMatches u memberId) = false := by
        intro e he
        exact h e (by simp [expensesOf, hg, he])
      rw [computeMemberBalance_some memberId g es hg]
      have hp : (es.map (paidContrib memberId)).sum = 0 := by
        apply List.sum_eq_zero
        intro q hq
        rw [List.mem_map] at hq
        obtain ⟨e, he, rfl⟩ := hq
        simp [paidContrib, (hes e he).1]
      have hs : (es.map (shareContrib memberId)).sum = 0 := by
        apply List.sum_eq_zero
        intro q hq
        rw [List.mem_map] at hq
        obtain ⟨e, he, rfl⟩ := hq
        simp [shareContrib, (hes e he).2]
      rw [hp, hs]
      simp [round2_zero]

theorem untouched_member_zero_witness :
    computeMemberBalance "zz" (some grpTwo) = ⟨0, 0, 0⟩ :=
  untouched_member_zero "zz" (some grpTwo) (by decide)

/-- C9: `computeMemberBalance` is total at its interface: an absent snapshot
or an absent expense list yields `paid = 0, share = 0, net = 0`, and the
result over any expense list equals the result over the sublist of expenses
with non-empty split-among lists, so the division branch is never reached
with a zero-sized list. -/
theorem balance_total_guards (memberId : String) (g : Group)
    (hg : g.expenses = none) :
    computeMemberBalance memberId none = ⟨0, 0, 0⟩ ∧
    computeMemberBalance memberId (some g) = ⟨0, 0, 0⟩ ∧
    ∀ (g2 : Group) (es : List Expense), g2.expenses = some es →
      computeMemberBalance memberId (some g2) =
        computeMemberBalance memberId
          (some { g2 with
            expenses := some (es.filter (fun e => !e.splitAmong.isEmpty)) }) := by
  refine ⟨rfl, ?_, ?_⟩
  · unfold computeMemberBalance
    simp [hg]
  · intro g2 es hg2
    rw [computeMemberBalance_some memberId g2 es hg2,
      computeMemberBalance_some memberId _
        (es.filter (fun e => !e.splitAmong.isEmpty)) rfl]
    have h1 := sum_map_filter_nonempty_split (paidContrib memberId)
      (fun e h0 => by simp [paidContrib, h0]) es
    have h2 := sum_map_filter_nonempty_split (shareContrib memberId)
      (fun e h0 => by simp [shareContrib, h0]) es
    rw [h1, h2]

theorem balance_total_guards_witness :
    computeMemberBalance "a" (some grpNoExpenses) = ⟨0, 0, 0⟩ :=
  (balance_total_guards "a" grpNoExpenses rfl).2.1

/-- C6: the `expenseAdded` merge leaves the expense list unchanged when an
expense with the same identifier is already present, appends the new
expense otherwise, triggers the full re-fetch in both cases, and therefore
preserves uniqueness of expense identifiers. -/
theorem handleExpense_merge (g : Group) (es : List Expense)
    (hg : g.expenses = some es) (x : Expense) :
    (es.any (fun e => e._id == x._id) = true →
        handleExpense (some g) x = (some g, true)) ∧
    (es.any (fun e => e._id == x._id) = false →
        handleExpense (some g) x =
          (some { g with expenses := some (es ++ [x]) }, true)) ∧
    ((es.map (fun e => e._id)).Nodup →
        ((expensesOf (handleExpense (some g) x).1).map
            (fun e => e._id)).Nodup) := by
  have hm : mergeExpense (some g) x =
      if es.any (fun e => e._id == x._id) then some g
      else some { g with expenses := some (es ++ [x]) } := by
    simp [mergeExpense, hg]
  refine ⟨fun h => ?_, fun h => ?_, fun hnd => ?_⟩
  · simp [handleExpense, hm, h]
  · simp [handleExpense, hm, h]
  · by_cases h : es.any (fun e => e._id == x._id) = true
    · simpa [handleExpense, hm, h, expensesOf, hg] using hnd
    · have hfalse : es.any (fun e => e._id == x._id) = false := by
        simpa using h
      have hnotmem : x._id ∉ es.map (fun e => e._id) := by
        intro hmem
        rw [List.mem_map] at hmem
        obtain ⟨e, he, heq⟩ := hmem
        rw [List.any_eq_false] at hfalse
        exact hfalse e he (by simp [heq])
      simp only [handleExpense, hm, hfalse, Bool.false_eq_true, if_false,
        expensesOf, Option.getD_some, List.map_append, List.map_cons,
        List.map_nil]
      rw [List.nodup_append]
      refine ⟨hnd, List.nodup_singleton _, fun a ha hb => ?_⟩
      simp only [List.mem_singleton] at hb
      subst hb
      exact hnotmem ha

theorem handleExpense_merge_witness :
    handleExpense (some grpSplit3) expSplit3 = (some grpSplit3, true) :=
  (handleExpense_merge grpSplit3 [expSplit3] rfl expSplit3).1 (by decide)

/-- C7: with the stored token absent, the socket useEffect aborts before
connecting or emitting the join intent, and `fetchGroupData`, run on the
same mount, navigates to the login route instead of issuing a request. -/
theorem join_guard_no_token (token : Option String) (connected : Bool)
    (h : strFalsy token = true) :
    socketJoinEffect token connected = ⟨false, false⟩ ∧
    fetchGroupDataStart token = .redirectLogin := by
  constructor <;> simp [socketJoinEffect, fetchGroupDataStart, h]

theorem join_guard_no_token_witness :
    socketJoinEffect none false = ⟨false, false⟩ ∧
    fetchGroupDataStart none = .redirectLogin :=
  join_guard_no_token none false rfl

def emptyStore : AuthStore := ⟨none, none, none, none⟩

/-- C8: the credential-store round trip: a set with both arguments present
fills both stores and makes `getAuthToken` return the token; `getAuthToken`
returns the session-scoped token whenever it is present (non-falsy) and
falls back to the durable one exactly when it is absent; a clear empties
both stores and makes `getAuthToken` return nothing. -/
theorem auth_roundtrip (user token : Option String) (st : AuthStore)
    (hu : strFalsy user = false) (ht : strFalsy token = false) :
    (setAuthData user token st = ⟨user, token, user, token⟩ ∧
      getAuthToken (setAuthData user token st) = token) ∧
    (strFalsy st.sessionToken = false → getAuthToken st = st.sessionToken) ∧
    (strFalsy st.sessionToken = true → getAuthToken st = st.localToken) ∧
    (clearAuthData st = ⟨none, none, none, none⟩ ∧
      getAuthToken (clearAuthData st) = none) := by
  refine ⟨⟨?_, ?_⟩, fun h => ?_, fun h => ?_, rfl, rfl⟩
  · simp [setAuthData, hu, ht]
  · simp [setAuthData, getAuthToken, hu, ht]
  · simp [getAuthToken, h]
  · simp [getAuthToken, h]

theorem auth_roundtrip_witness :
    setAuthData (some "u") (some "t") emptyStore
        = ⟨some "u", some "t", some "u", some "t"⟩ ∧
    getAuthToken (setAuthData (some "u") (some "t") emptyStore) = some "t" :=
  (auth_roundtrip (some "u") (some "t") emptyStore rfl rfl).1

/-- C10: `setAuthData` with a falsy user or a falsy token writes nothing:
both stores are left exactly as they were. -/
theorem setAuthData_falsy_noop (user token : Option String) (st : AuthStore)
    (h : strFalsy user = true ∨ strFalsy token = true) :
    setAuthData user token st = st := by
  unfold setAuthData
  rcases h with h | h <;> simp [h]

theorem setAuthData_falsy_noop_witness :
    setAuthData none (some "t") emptyStore = emptyStore :=
  setAuthData_falsy_noop none (some "t") emptyStore (Or.inl rfl)

end CostShredly
